/-
Verification of the libdtfs device-tree filesystem parser.

Byte buffers of device-tree properties are modelled as `List Nat`
(each element one byte; real buffers hold values below 256), C strings
as Lean `String`, nullable pointers as `Option`, and the filesystem
backing store as an explicit record of query functions.  Visitor
callbacks are modelled by returning the list of invocations the C code
performs, in order.
-/
import Mathlib

set_option maxHeartbeats 1000000

/-- C locale `isprint`: printable characters are 0x20 .. 0x7E. -/
def isprint (c : Nat) : Bool := decide (32 ≤ c) && decide (c ≤ 126)

/-- The scanning loops of `is_printable_string` (libdtfs.c lines 48-58),
one step per byte.  `inRun = false` is the top of the outer `while`
(no byte of the current run consumed yet, `s == ss`); `inRun = true` is
the inner `while` after at least one printable byte was consumed.
Reaching the end of the buffer mid-run would make the C code read one
byte past the buffer; that point is unreachable because the caller has
already checked that the last byte is NUL, and is modelled as failure. -/
def scanR : Bool → List Nat → Bool
  | inRun, [] => !inRun
  | false, c :: rest => if (c != 0) && isprint c then scanR true rest else false
  | true, c :: rest =>
      if c = 0 then scanR false rest
      else if isprint c then scanR true rest else false

/-- `is_printable_string` (libdtfs.c lines 33-61): non-empty, last byte
NUL, and the byte scan succeeds. -/
def is_printable_string (l : List Nat) : Bool :=
  if l.length = 0 then false
  else if l.getLast? ≠ some 0 then false
  else scanR false l

/-- C `strlen` at the start of the buffer: bytes before the first NUL. -/
def cstrlen (l : List Nat) : Nat := (l.takeWhile (fun c => c != 0)).length

/-- The count loop of the `DTFS_PROP_STRINGS` branch of
`dtfs_get_prop_type` (libdtfs.c lines 72-77): a do-while that hops from
string to string with `s += strlen(s) + 1` and counts the hops. -/
def string_count (l : List Nat) : Nat :=
  if h : cstrlen l + 1 < l.length then 1 + string_count (l.drop (cstrlen l + 1)) else 1
termination_by l.length
decreasing_by
simp only [List.length_drop]
omega

def DTFS_PROP_SIMPLE : Int := 0
def DTFS_PROP_STRINGS : Int := 1
def DTFS_PROP_WORDS : Int := 2
def DTFS_PROP_BYTES : Int := 3

/-- `dtfs_get_prop_type` (libdtfs.c lines 63-90).  First component: the
returned type tag.  Second component: the count stored through the
`count` out-pointer (`none` when nothing is written). -/
def dtfs_get_prop_type (l : List Nat) : Int × Option Nat :=
  if l.length = 0 then (DTFS_PROP_SIMPLE, none)
  else if is_printable_string l then (DTFS_PROP_STRINGS, some (string_count l))
  else if l.length % 4 = 0 then (DTFS_PROP_WORDS, some (l.length / 4))
  else (DTFS_PROP_BYTES, some l.length)

/-- `ntohl(w[n])` (libdtfs.c line 105): the 4 bytes at byte offset `4*n`
read as a big-endian 32-bit integer.  An index past the end of the list
is an out-of-bounds read in the C code (undefined behaviour); the model
reads such bytes as 0. -/
def ntohl_at (l : List Nat) (n : Nat) : Nat :=
  l.getD (4 * n) 0 * 2 ^ 24 + l.getD (4 * n + 1) 0 * 2 ^ 16 +
    l.getD (4 * n + 2) 0 * 2 ^ 8 + l.getD (4 * n + 3) 0

/-- `dtfs_word_get` (libdtfs.c lines 92-108) with a non-null `word`
out-pointer; `none` models the -1 return.  The bounds test is the
code's `n * sizeof(uint32_t) > len`, which admits `n = len / 4`. -/
def dtfs_word_get (l : List Nat) (n : Nat) : Option Nat :=
  if (dtfs_get_prop_type l).1 ≠ DTFS_PROP_WORDS then none
  else if n * 4 > l.length then none
  else some (ntohl_at l n)

/-- The do-while of `dtfs_string_get` (libdtfs.c lines 122-130), acting
on the current suffix of the buffer; `n` counts down instead of `cur`
counting up towards it. -/
def string_get_loop (l : List Nat) (n : Nat) : Option (List Nat) :=
  if n = 0 then some l
  else if h : cstrlen l + 1 < l.length then string_get_loop (l.drop (cstrlen l + 1)) (n - 1)
  else none
termination_by l.length
decreasing_by
simp only [List.length_drop]
omega

/-- `dtfs_string_get` (libdtfs.c lines 110-133) with a non-null `str`
out-pointer.  The returned pointer into the buffer is modelled as the
suffix of the buffer it points at. -/
def dtfs_string_get (l : List Nat) (n : Nat) : Option (List Nat) :=
  if (dtfs_get_prop_type l).1 ≠ DTFS_PROP_STRINGS then none
  else string_get_loop l n

/-- Result kind of `stat` (libdtfs.c lines 157-163). -/
inductive StatKind
  | dir
  | file
  | other
deriving DecidableEq

/-- The filesystem backing store: `stat` gives kind and size, `readDir`
the entry names delivered by `opendir`+`readdir` (`none` = open
failure), `readFile` the bytes `fopen`+`fread` can deliver (`none` =
open failure). -/
structure Store where
  stat : String → Option (StatKind × Nat)
  readDir : String → Option (List String)
  readFile : String → Option (List Nat)

/-- `dtfs_concat_path` (libdtfs.h lines 54-95, the portable branch).
The C computes `strlen(base)` before its `!base` test (undefined for a
null base — the library's callers never pass one); the model follows
the explicit test and returns `none`.  `path[0]` of an empty relative
path reads the terminating NUL, modelled by the default `Char.ofNat 0`. -/
def dtfs_concat_path (base : Option String) (path : Option String) : Option String :=
  match base with
  | none => none
  | some b =>
    if b.length < 1 then none
    else
      match path with
      | none => some b
      | some p =>
        if b.data.getD (b.length - 1) (Char.ofNat 0) ≠ '/' ∧
            p.data.getD 0 (Char.ofNat 0) ≠ '/' then
          some (b ++ "/" ++ p)
        else some (b ++ p)

def DTFS_PATH_ERROR : Int := -1
def DTFS_PATH_NODE : Int := 0
def DTFS_PATH_PROPERTY : Int := 1

/-- `dtfs_check_path` (libdtfs.c lines 135-164). -/
def dtfs_check_path (st : Store) (base : Option String) (path : Option String) : Int :=
  match base with
  | none => -1
  | some _ =>
    match dtfs_concat_path base path with
    | none => -1
    | some str =>
      match st.stat str with
      | none => -1
      | some (StatKind.dir, _) => DTFS_PATH_NODE
      | some (StatKind.file, _) => DTFS_PATH_PROPERTY
      | some (StatKind.other, _) => DTFS_PATH_ERROR

/-- `dtfs_list_node` (libdtfs.c lines 166-199).  `hasVisitor = false`
models a null `new_sub_node` callback.  Result: the returned int and
the list of `(path, name)` visitor invocations in order.  A failed
`opendir` only prints a diagnostic: the function still returns 0. -/
def dtfs_list_node (st : Store) (base : Option String) (node_path : Option String)
    (hasVisitor : Bool) : Int × List (String × String) :=
  if !hasVisitor then (0, [])
  else
    match base with
    | none => (-1, [])
    | some _ =>
      match dtfs_concat_path base node_path with
      | none => (-1, [])
      | some str =>
        match st.readDir str with
        | none => (0, [])
        | some entries =>
          (0, (entries.filter (fun e => e.data.getD 0 (Char.ofNat 0) != '.')).map
            (fun e => (str, e)))

/-- `dtfs_prop_get` (libdtfs.c lines 202-270).  `hasVisitor = false`
models a null `prop_content` callback.  Result: the returned int and
the list of `(path, data, len)` visitor invocations; data `none` models
the NULL buffer passed for a zero-sized property. -/
def dtfs_prop_get (st : Store) (base : Option String) (path : Option String)
    (hasVisitor : Bool) : Int × List (String × Option (List Nat) × Nat) :=
  if !hasVisitor then (0, [])
  else if dtfs_check_path st base path ≠ DTFS_PATH_PROPERTY then (-1, [])
  else
    match base with
    | none => (-1, [])
    | some _ =>
      match dtfs_concat_path base path with
      | none => (-1, [])
      | some str =>
        match st.stat str with
        | none => (-1, [])
        | some (_, size) =>
          if 0 < size then
            match st.readFile str with
            | none => (-1, [])
            | some buf =>
              if buf.length < size then (-1, [])
              else (0, [(str, some (buf.take size), size)])
          else (0, [(str, none, 0)])

/-- Specification-side predicate, following the spec's words: a
well-formed string list with `k` runs is a concatenation of `k`
segments, each a non-empty maximal run of printable non-NUL bytes
followed by one NUL, the segments exactly tiling the buffer. -/
inductive SpecStringListN : List Nat → Nat → Prop where
  | nil : SpecStringListN [] 0
  | cons (run rest : List Nat) (k : Nat) :
      run ≠ [] → (∀ c ∈ run, c ≠ 0 ∧ 32 ≤ c ∧ c ≤ 126) →
      SpecStringListN rest k → SpecStringListN (run ++ 0 :: rest) (k + 1)

/-- A buffer is a well-formed string list if it splits into such runs. -/
def SpecStringList (l : List Nat) : Prop := ∃ k, SpecStringListN l k

/-- Specification-side decomposition of a buffer into NUL-terminated
segments; each segment carries its trailing NUL. -/
def segs (l : List Nat) : List (List Nat) :=
  if h : l = [] then []
  else l.take (cstrlen l + 1) :: segs (l.drop (cstrlen l + 1))
termination_by l.length
decreasing_by
simp only [List.length_drop]
have : 0 < l.length := List.length_pos.mpr h
omega

/-- A store where every query fails. -/
def failStore : Store where
  stat := fun _ => none
  readDir := fun _ => none
  readFile := fun _ => none

/-- A store holding a single zero-sized property. -/
def emptyPropStore : Store where
  stat := fun _ => some (StatKind.file, 0)
  readDir := fun _ => none
  readFile := fun _ => some []

/-- A store holding a single one-byte property with content 0x07. -/
def bytePropStore : Store where
  stat := fun _ => some (StatKind.file, 1)
  readDir := fun _ => none
  readFile := fun _ => some [7]

/-- A store holding a single directory with three entries. -/
def dirStore : Store where
  stat := fun _ => some (StatKind.dir, 0)
  readDir := fun _ => some ["child1", ".hidden", "child2"]
  readFile := fun _ => none

/-- The loop condition `*s && isprint(*s)` holds exactly on printable
non-NUL bytes. -/
theorem pr_iff (c : Nat) :
    ((c != 0) && isprint c) = true ↔ c ≠ 0 ∧ 32 ≤ c ∧ c ≤ 126 := by
  simp [isprint, Bool.and_eq_true, bne_iff_ne, decide_eq_true_eq, and_assoc]

/-- Consuming a run of printable non-NUL bytes and its terminating NUL
returns the scan to the top of the outer loop. -/
theorem scanR_run (run rest : List Nat)
    (h : ∀ c ∈ run, ((c != 0) && isprint c) = true) :
    scanR true (run ++ 0 :: rest) = scanR false rest := by
  induction run with
  | nil => simp [scanR]
  | cons c run ih =>
    have hc := h c (List.mem_cons_self c run)
    obtain ⟨hne, h32, h126⟩ := (pr_iff c).mp hc
    have hpr : isprint c = true := by
      simp only [isprint, Bool.and_eq_true, decide_eq_true_eq]
      exact ⟨h32, h126⟩
    simp only [List.cons_append, scanR, hne, if_false, hpr, if_true, ite_false, ite_true]
    exact ih (fun d hd => h d (List.mem_cons_of_mem c hd))

/-- A well-formed string list passes the byte scan. -/
theorem scanR_of_spec {l : List Nat} {k : Nat} (h : SpecStringListN l k) :
    scanR false l = true := by
  induction h with
  | nil => rfl
  | cons run rest k hne hpr hrest ih =>
    cases run with
    | nil => exact absurd rfl hne
    | cons c run =>
      have hc : ((c != 0) && isprint c) = true := (pr_iff c).mpr (hpr c (by simp))
      have hrun : ∀ d ∈ run, ((d != 0) && isprint d) = true :=
        fun d hd => (pr_iff d).mpr (hpr d (by simp [hd]))
      calc scanR false ((c :: run) ++ 0 :: rest)
          = scanR true (run ++ 0 :: rest) := by simp [scanR, hc]
        _ = scanR false rest := scanR_run run rest hrun
        _ = true := ih

/-- A non-empty well-formed string list ends in a NUL byte. -/
theorem getLast?_of_spec {l : List Nat} {k : Nat} (h : SpecStringListN l k) :
    l ≠ [] → l.getLast? = some 0 := by
  induction h with
  | nil => intro hne; exact absurd rfl hne
  | cons run rest k hrne hpr hrest ih =>
    intro _
    rw [List.getLast?_append_cons]
    cases rest with
    | nil => rfl
    | cons d rest =>
      have h01 : (0 :: d :: rest : List Nat) = [0] ++ d :: rest := rfl
      rw [h01, List.getLast?_append_cons]
      exact ih (by simp)

/-- A successful scan from inside a run splits off the rest of the run
and its terminating NUL. -/
theorem scanR_true_split {l : List Nat} (h : scanR true l = true) :
    ∃ run rest, l = run ++ 0 :: rest ∧
      (∀ c ∈ run, ((c != 0) && isprint c) = true) ∧ scanR false rest = true := by
  induction l with
  | nil => simp [scanR] at h
  | cons c t ih =>
    by_cases hc : c = 0
    · subst hc
      refine ⟨[], t, rfl, by simp, ?_⟩
      simpa [scanR] using h
    · have hp : isprint c = true := by
        by_contra hp
        simp [scanR, hc, hp] at h
      have h' : scanR true t = true := by simpa [scanR, hc, hp] using h
      obtain ⟨run, rest, heq, hrun, hrest⟩ := ih h'
      refine ⟨c :: run, rest, by simp [heq], ?_, hrest⟩
      intro d hd
      rcases List.mem_cons.mp hd with rfl | hd
      · simp [hc, hp]
      · exact hrun d hd

/-- A successful scan from a run start yields a well-formed string
list; induction on a length bound. -/
theorem spec_of_scanR : ∀ (n : Nat) (l : List Nat), l.length ≤ n →
    scanR false l = true → SpecStringList l := by
  intro n
  induction n with
  | zero =>
    intro l hl _
    have hnil : l = [] := List.eq_nil_of_length_eq_zero (Nat.le_zero.mp hl)
    exact hnil ▸ ⟨0, SpecStringListN.nil⟩
  | succ n ih =>
    intro l hl hs
    cases l with
    | nil => exact ⟨0, SpecStringListN.nil⟩
    | cons c t =>
      have hcp : ((c != 0) && isprint c) = true := by
        by_contra hcp
        simp [scanR, hcp] at hs
      have ht : scanR true t = true := by simpa [scanR, hcp] using hs
      obtain ⟨run, rest, heq, hrun, hrest⟩ := scanR_true_split ht
      have hlen : rest.length ≤ n := by
        subst heq
        simp [List.length_append] at hl
        omega
      obtain ⟨k, hk⟩ := ih rest hlen hrest
      refine ⟨k + 1, ?_⟩
      have hshape : (c :: t : List Nat) = (c :: run) ++ 0 :: rest := by simp [heq]
      rw [hshape]
      refine SpecStringListN.cons (c :: run) rest k (by simp) ?_ hk
      intro d hd
      rcases List.mem_cons.mp hd with rfl | hd
      · exact (pr_iff d).mp hcp
      · exact (pr_iff d).mp (hrun d hd)

/-- `is_printable_string` accepts exactly the non-empty well-formed
string lists. -/
theorem is_printable_string_iff (l : List Nat) :
    is_printable_string l = true ↔ l ≠ [] ∧ SpecStringList l := by
  constructor
  · intro h
    unfold is_printable_string at h
    by_cases h0 : l.length = 0
    · simp [h0] at h
    · have hne : l ≠ [] := fun hl => h0 (by simp [hl])
      refine ⟨hne, ?_⟩
      by_cases hlast : l.getLast? = some 0
      · simp [h0, hlast] at h
        exact spec_of_scanR l.length l le_rfl h
      · simp [h0, hlast] at h
  · rintro ⟨hne, k, hk⟩
    have h0 : ¬ l.length = 0 := fun h => hne (List.eq_nil_of_length_eq_zero h)
    have hlast := getLast?_of_spec hk hne
    simp [is_printable_string, h0, hlast, scanR_of_spec hk]

/-- `strlen` stops exactly at the NUL that terminates a run of non-NUL
bytes. -/
theorem takeWhile_run (run rest : List Nat) (h : ∀ c ∈ run, c ≠ 0) :
    (run ++ 0 :: rest).takeWhile (fun c => c != 0) = run := by
  induction run with
  | nil => simp [List.takeWhile_cons]
  | cons c run ih =>
    have hc : (c != 0) = true := by
      simp [bne_iff_ne]
      exact h c (by simp)
    simp only [List.cons_append, List.takeWhile_cons, hc, if_true, ite_true, List.cons.injEq,
      true_and]
    exact ih (fun d hd => h d (by simp [hd]))

theorem cstrlen_run (run rest : List Nat) (h : ∀ c ∈ run, c ≠ 0) :
    cstrlen (run ++ 0 :: rest) = run.length := by
  simp [cstrlen, takeWhile_run run rest h]

theorem drop_run (run rest : List Nat) :
    (run ++ 0 :: rest).drop (run.length + 1) = rest := by
  have hshape : run ++ 0 :: rest = (run ++ [0]) ++ rest := by simp
  rw [hshape]
  exact List.drop_left' (by simp)

theorem take_run (run rest : List Nat) :
    (run ++ 0 :: rest).take (run.length + 1) = run ++ [0] := by
  have hshape : run ++ 0 :: rest = (run ++ [0]) ++ rest := by simp
  rw [hshape]
  exact List.take_left' (by simp)

/-- The empty buffer has zero runs. -/
theorem specStringListN_nil_eq {l : List Nat} {k : Nat} (h : SpecStringListN l k)
    (hl : l = []) : k = 0 := by
  cases h with
  | nil => rfl
  | cons run rest k hrne hpr hrest => exact absurd hl (by simp)

/-- On a non-empty well-formed string list, the count loop of
`dtfs_get_prop_type` computes the number of runs. -/
theorem string_count_spec {l : List Nat} {k : Nat} (h : SpecStringListN l k) :
    l ≠ [] → string_count l = k := by
  induction h with
  | nil => intro hne; exact absurd rfl hne
  | cons run rest k hrne hpr hrest ih =>
    intro _
    have hz : ∀ c ∈ run, c ≠ 0 := fun c hc => (hpr c hc).1
    have hcs : cstrlen (run ++ 0 :: rest) = run.length := cstrlen_run run rest hz
    rw [string_count, hcs, drop_run]
    cases rest with
    | nil =>
      rw [dif_neg (by simp)]
      have hk0 : k = 0 := specStringListN_nil_eq hrest rfl
      omega
    | cons d rest =>
      rw [dif_pos (by simp [List.length_append])]
      have hrec := ih (by simp)
      omega

theorem segs_nil : segs [] = [] := by
  rw [segs]
  simp

theorem segs_cons_of_ne {l : List Nat} (h : l ≠ []) :
    segs l = l.take (cstrlen l + 1) :: segs (l.drop (cstrlen l + 1)) := by
  conv_lhs => rw [segs]
  simp [h]

/-- The NUL-terminated segments tile the buffer. -/
theorem segs_flatten : ∀ (l : List Nat), (segs l).flatten = l := by
  have aux : ∀ (n : Nat) (l : List Nat), l.length ≤ n → (segs l).flatten = l := by
    intro n
    induction n with
    | zero =>
      intro l hl
      have hnil : l = [] := List.eq_nil_of_length_eq_zero (Nat.le_zero.mp hl)
      simp [hnil, segs_nil]
    | succ n ih =>
      intro l hl
      by_cases h : l = []
      · simp [h, segs_nil]
      · have hpos : 0 < l.length := List.length_pos.mpr h
        rw [segs_cons_of_ne h, List.flatten_cons, ih (l.drop (cstrlen l + 1)) ?_,
          List.take_append_drop]
        simp only [List.length_drop]
        omega
  intro l
  exact aux l.length l le_rfl

/-- On a well-formed string list the segment decomposition has exactly
one segment per run. -/
theorem segs_spec {l : List Nat} {k : Nat} (h : SpecStringListN l k) :
    (segs l).length = k := by
  induction h with
  | nil => simp [segs_nil]
  | cons run rest k hrne hpr hrest ih =>
    have hz : ∀ c ∈ run, c ≠ 0 := fun c hc => (hpr c hc).1
    rw [segs_cons_of_ne (by simp), cstrlen_run run rest hz, drop_run]
    simp [ih]

/-- The walk of `dtfs_string_get` lands on run starts: index `n` below
the run count returns the suffix that starts at run `n`; an index at or
past the count runs off the end and fails. -/
theorem string_get_loop_spec {l : List Nat} {k : Nat} (h : SpecStringListN l k) :
    l ≠ [] → ∀ n : Nat,
      (n < k → string_get_loop l n = some (((segs l).drop n).flatten)) ∧
      (k ≤ n → string_get_loop l n = none) := by
  induction h with
  | nil => intro hne; exact absurd rfl hne
  | cons run rest k hrne hpr hrest ih =>
    intro _ n
    have hz : ∀ c ∈ run, c ≠ 0 := fun c hc => (hpr c hc).1
    have hcs : cstrlen (run ++ 0 :: rest) = run.length := cstrlen_run run rest hz
    cases n with
    | zero =>
      constructor
      · intro _
        rw [string_get_loop]
        simp [segs_flatten]
      · intro hk
        exact absurd hk (by omega)
    | succ m =>
      rw [string_get_loop, hcs, drop_run]
      rw [segs_cons_of_ne (by simp), cstrlen_run run rest hz, drop_run]
      cases rest with
      | nil =>
        rw [dif_neg (by simp)]
        have hk0 : k = 0 := specStringListN_nil_eq hrest rfl
        constructor
        · intro hm
          exact absurd hm (by omega)
        · intro _
          simp
      | cons d rest =>
        rw [dif_pos (by simp [List.length_append])]
        have hih := ih (by simp) m
        constructor
        · intro hm
          rw [List.drop_succ_cons]
          simpa using hih.1 (by omega)
        · intro hm
          simpa using hih.2 (by omega)

/-- The type tag as a first-match chain of the three tests. -/
theorem tag_eq (l : List Nat) :
    (dtfs_get_prop_type l).1 =
      if l.length = 0 then DTFS_PROP_SIMPLE
      else if is_printable_string l then DTFS_PROP_STRINGS
      else if l.length % 4 = 0 then DTFS_PROP_WORDS
      else DTFS_PROP_BYTES := by
  unfold dtfs_get_prop_type
  split_ifs <;> rfl

/-- The buffer `"a\x00b\x00"` is a well-formed string list with 2 runs. -/
theorem specStringListN_ab : SpecStringListN [97, 0, 98, 0] 2 := by
  have h1 : SpecStringListN [98, 0] 1 := by
    have h := SpecStringListN.cons [98] [] 0 (by simp) (by decide) SpecStringListN.nil
    simpa using h
  have h2 := SpecStringListN.cons [97] [98, 0] 1 (by simp) (by decide) h1
  simpa using h2

/-- Segment decomposition of `"a\x00b\x00"`. -/
theorem segs_ab : segs [97, 0, 98, 0] = [[97, 0], [98, 0]] := by
  have h1 : segs [97, 0, 98, 0] = [97, 0] :: segs [98, 0] := by
    rw [segs_cons_of_ne (by simp)]
    rfl
  have h2 : segs [98, 0] = [98, 0] :: segs ([] : List Nat) := by
    rw [segs_cons_of_ne (by simp)]
    rfl
  rw [h1, h2, segs_nil]

/-- C1: `dtfs_get_prop_type` assigns the tag by first-match rule order:
an empty buffer is Simple; else a well-formed string list (final byte
NUL, maximal runs non-empty and printable, NULs tiling the buffer) is
Strings; else a length divisible by 4 is Words; else Bytes.  In
particular `"a\x00b\x00"`, whose length is a multiple of 4 and which
passes the string test, is Strings, not Words. -/
theorem dtfs_get_prop_type_first_match (l : List Nat) :
    ((dtfs_get_prop_type l).1 = DTFS_PROP_SIMPLE ↔ l.length = 0) ∧
    ((dtfs_get_prop_type l).1 = DTFS_PROP_STRINGS ↔ l.length ≠ 0 ∧ SpecStringList l) ∧
    ((dtfs_get_prop_type l).1 = DTFS_PROP_WORDS ↔
      l.length ≠ 0 ∧ ¬ SpecStringList l ∧ l.length % 4 = 0) ∧
    ((dtfs_get_prop_type l).1 = DTFS_PROP_BYTES ↔
      l.length ≠ 0 ∧ ¬ SpecStringList l ∧ l.length % 4 ≠ 0) ∧
    (dtfs_get_prop_type [97, 0, 98, 0]).1 = DTFS_PROP_STRINGS ∧
    ([97, 0, 98, 0] : List Nat).length % 4 = 0 := by
  have hiff := is_printable_string_iff l
  refine ⟨?_, ?_, ?_, ?_, by decide, by decide⟩ <;>
    rw [tag_eq] <;> split_ifs with h0 hps h4 <;>
      simp_all [DTFS_PROP_SIMPLE, DTFS_PROP_STRINGS, DTFS_PROP_WORDS, DTFS_PROP_BYTES]

/-- C9: classification is total and never signals an error: the tag is
always one of the four enum values and never the documented error
return -1. -/
theorem dtfs_get_prop_type_total (l : List Nat) :
    ((dtfs_get_prop_type l).1 = DTFS_PROP_SIMPLE ∨
      (dtfs_get_prop_type l).1 = DTFS_PROP_STRINGS ∨
      (dtfs_get_prop_type l).1 = DTFS_PROP_WORDS ∨
      (dtfs_get_prop_type l).1 = DTFS_PROP_BYTES) ∧
    (dtfs_get_prop_type l).1 ≠ -1 := by
  rw [tag_eq]
  split_ifs <;>
    simp [DTFS_PROP_SIMPLE, DTFS_PROP_STRINGS, DTFS_PROP_WORDS, DTFS_PROP_BYTES]

/-- C3: the count written through the out-pointer is the number of
tiling NUL-terminated segments for Strings, `len / 4` for Words, `len`
for Bytes, and nothing is written for Simple. -/
theorem dtfs_get_prop_type_count (l : List Nat) :
    ((dtfs_get_prop_type l).1 = DTFS_PROP_STRINGS →
      ∀ k, SpecStringListN l k → (dtfs_get_prop_type l).2 = some k) ∧
    ((dtfs_get_prop_type l).1 = DTFS_PROP_WORDS →
      (dtfs_get_prop_type l).2 = some (l.length / 4)) ∧
    ((dtfs_get_prop_type l).1 = DTFS_PROP_BYTES →
      (dtfs_get_prop_type l).2 = some l.length) ∧
    ((dtfs_get_prop_type l).1 = DTFS_PROP_SIMPLE →
      (dtfs_get_prop_type l).2 = none) := by
  refine ⟨?_, ?_, ?_, ?_⟩
  · intro h k hk
    have hne : l ≠ [] := by
      rintro rfl
      rw [tag_eq] at h
      simp [DTFS_PROP_SIMPLE, DTFS_PROP_STRINGS] at h
    have h0 : ¬ l.length = 0 := fun hc => hne (List.eq_nil_of_length_eq_zero hc)
    have hps : is_printable_string l = true :=
      (is_printable_string_iff l).mpr ⟨hne, k, hk⟩
    simp [dtfs_get_prop_type, h0, hps, string_count_spec hk hne]
  · intro h
    rw [tag_eq] at h
    by_cases h0 : l.length = 0
    · simp [h0, DTFS_PROP_SIMPLE, DTFS_PROP_WORDS] at h
    by_cases hps : is_printable_string l = true
    · simp [h0, hps, DTFS_PROP_STRINGS, DTFS_PROP_WORDS] at h
    by_cases h4 : l.length % 4 = 0
    · simp [dtfs_get_prop_type, h0, hps, h4]
    · simp [h0, hps, h4, DTFS_PROP_BYTES, DTFS_PROP_WORDS] at h
  · intro h
    rw [tag_eq] at h
    by_cases h0 : l.length = 0
    · simp [h0, DTFS_PROP_SIMPLE, DTFS_PROP_BYTES] at h
    by_cases hps : is_printable_string l = true
    · simp [h0, hps, DTFS_PROP_STRINGS, DTFS_PROP_BYTES] at h
    by_cases h4 : l.length % 4 = 0
    · simp [h0, hps, h4, DTFS_PROP_WORDS, DTFS_PROP_BYTES] at h
    · simp [dtfs_get_prop_type, h0, hps, h4]
  · intro h
    rw [tag_eq] at h
    by_cases h0 : l.length = 0
    · simp [dtfs_get_prop_type, h0]
    by_cases hps : is_printable_string l = true
    · simp [h0, hps, DTFS_PROP_STRINGS, DTFS_PROP_SIMPLE] at h
    by_cases h4 : l.length % 4 = 0
    · simp [h0, hps, h4, DTFS_PROP_WORDS, DTFS_PROP_SIMPLE] at h
    · simp [h0, hps, h4, DTFS_PROP_BYTES, DTFS_PROP_SIMPLE] at h

/-- C3 witness: the count invariant evaluated on concrete buffers of
each shape. -/
theorem dtfs_get_prop_type_count_witness :
    (dtfs_get_prop_type [97, 0, 98, 0]).2 = some 2 ∧
    (dtfs_get_prop_type [0, 0, 0, 1]).2 = some 1 ∧
    (dtfs_get_prop_type [1, 2, 3]).2 = some 3 ∧
    (dtfs_get_prop_type []).2 = none :=
  ⟨(dtfs_get_prop_type_count [97, 0, 98, 0]).1 (by decide) 2 specStringListN_ab,
   (dtfs_get_prop_type_count [0, 0, 0, 1]).2.1 (by decide),
   (dtfs_get_prop_type_count [1, 2, 3]).2.2.1 (by decide),
   (dtfs_get_prop_type_count []).2.2.2 (by decide)⟩

/-- C2: the bounds check of `dtfs_word_get` is `n * 4 > len`, not
`(n + 1) * 4 > len`: on the 4-byte Words buffer `00 00 00 01` the index
`n = 1` — which the claim requires to fail, since `(1+1)*4 > 4` — is
accepted, and the C code reads `w[1]`, 4 bytes past the end of the
buffer (undefined behaviour; the model reads zeros there). -/
theorem dtfs_word_get_bounds_bug :
    (dtfs_get_prop_type [0, 0, 0, 1]).1 = DTFS_PROP_WORDS ∧
    (1 + 1) * 4 > ([0, 0, 0, 1] : List Nat).length ∧
    dtfs_word_get [0, 0, 0, 1] 1 = some 0 := by
  decide

/-- C4: `dtfs_string_get` fails exactly when the buffer is not Strings
or the index is not below the run count; otherwise it returns the
suffix of the buffer that starts at the first byte of the n-th
NUL-terminated run (the flattening of the segments from n on).  On
`"a\x00b\x00"`: index 0 yields the C string "a", index 1 yields "b",
index 2 fails. -/
theorem dtfs_string_get_spec (l : List Nat) (n : Nat) :
    ((dtfs_get_prop_type l).1 ≠ DTFS_PROP_STRINGS → dtfs_string_get l n = none) ∧
    (∀ k, SpecStringListN l k → (dtfs_get_prop_type l).1 = DTFS_PROP_STRINGS →
      (n < k → dtfs_string_get l n = some (((segs l).drop n).flatten)) ∧
      (k ≤ n → dtfs_string_get l n = none)) ∧
    (dtfs_string_get [97, 0, 98, 0] 0).map (fun v => v.takeWhile (fun c => c != 0)) =
      some [97] ∧
    (dtfs_string_get [97, 0, 98, 0] 1).map (fun v => v.takeWhile (fun c => c != 0)) =
      some [98] ∧
    dtfs_string_get [97, 0, 98, 0] 2 = none := by
  have hgetab : ∀ m, dtfs_string_get [97, 0, 98, 0] m = string_get_loop [97, 0, 98, 0] m := by
    intro m
    have htag : (dtfs_get_prop_type [97, 0, 98, 0]).1 = DTFS_PROP_STRINGS := by decide
    simp [dtfs_string_get, htag]
  refine ⟨?_, ?_, ?_, ?_, ?_⟩
  · intro h
    simp [dtfs_string_get, h]
  · intro k hk htag
    have hne : l ≠ [] := by
      rintro rfl
      rw [tag_eq] at htag
      simp [DTFS_PROP_SIMPLE, DTFS_PROP_STRINGS] at htag
    have hloop := string_get_loop_spec hk hne n
    have hget : dtfs_string_get l n = string_get_loop l n := by
      simp [dtfs_string_get, htag]
    exact ⟨fun hn => by rw [hget]; exact hloop.1 hn,
           fun hn => by rw [hget]; exact hloop.2 hn⟩
  · have hloop := (string_get_loop_spec specStringListN_ab (by simp) 0).1 (by omega)
    rw [hgetab 0, hloop, segs_ab]
    decide
  · have hloop := (string_get_loop_spec specStringListN_ab (by simp) 1).1 (by omega)
    rw [hgetab 1, hloop, segs_ab]
    decide
  · have hloop := (string_get_loop_spec specStringListN_ab (by simp) 2).2 (by omega)
    rw [hgetab 2, hloop]

/-- C4 witness: the general part applied at `"a\x00b\x00"`, run count 2,
index 0. -/
theorem dtfs_string_get_spec_witness :
    dtfs_string_get [97, 0, 98, 0] 0 = some (((segs [97, 0, 98, 0]).drop 0).flatten) :=
  ((dtfs_string_get_spec [97, 0, 98, 0] 0).2.1 2 specStringListN_ab (by decide)).1
    (by decide)

/-- C5 counterexample: with a backing store whose directory open fails,
`dtfs_list_node` (join succeeding) returns 0, not a failure indicator. -/
theorem dtfs_list_node_open_fail_cex :
    failStore.readDir ("/b") = none ∧
    dtfs_concat_path (some ("/b")) none = some ("/b") ∧
    (dtfs_list_node failStore (some ("/b")) none true).1 = 0 ∧
    ¬ (dtfs_list_node failStore (some ("/b")) none true).1 = -1 := by
  exact ⟨rfl, by decide, by decide, by decide⟩

/-- C5 (amended): `dtfs_list_node` with a visitor returns -1 exactly
when the path join fails (in particular when the base is absent or
empty); a directory that cannot be opened is only reported — the call
still returns 0 and performs no visits. -/
theorem dtfs_list_node_failure (st : Store) (base path : Option String) :
    ((dtfs_list_node st base path true).1 = -1 ↔ dtfs_concat_path base path = none) ∧
    (∀ str, dtfs_concat_path base path = some str → st.readDir str = none →
      dtfs_list_node st base path true = (0, [])) := by
  constructor
  · cases base with
    | none => simp [dtfs_list_node, dtfs_concat_path]
    | some b =>
      cases hc : dtfs_concat_path (some b) path with
      | none => simp [dtfs_list_node, hc]
      | some str =>
        cases hd : st.readDir str with
        | none => simp [dtfs_list_node, hc, hd]
        | some entries => simp [dtfs_list_node, hc, hd]
  · intro str hc hd
    cases base with
    | none => simp [dtfs_concat_path] at hc
    | some b => simp [dtfs_list_node, hc, hd]

/-- C5 witness: the amended failure conditions at concrete inputs — an
empty base makes the join fail and returns -1; a failed directory open
returns 0 with no visits. -/
theorem dtfs_list_node_failure_witness :
    (dtfs_list_node failStore (some ("")) none true).1 = -1 ∧
    dtfs_list_node failStore (some ("/b")) none true = (0, []) :=
  ⟨(dtfs_list_node_failure failStore (some ("")) none).1.mpr rfl,
   (dtfs_list_node_failure failStore (some ("/b")) none).2 ("/b") rfl rfl⟩

/-- C7: `dtfs_prop_get` re-checks that the joined path classifies as a
property and fails without invoking the visitor when it does not. -/
theorem dtfs_prop_get_requires_property (st : Store) (base path : Option String) :
    dtfs_check_path st base path ≠ DTFS_PATH_PROPERTY →
    dtfs_prop_get st base path true = (-1, []) := by
  intro h
  simp [dtfs_prop_get, h]

/-- C7 witness: on a store where `stat` fails, the path does not
classify as a property and the visitor is never invoked. -/
theorem dtfs_prop_get_requires_property_witness :
    dtfs_prop_get failStore (some ("/x")) none true = (-1, []) :=
  dtfs_prop_get_requires_property failStore (some ("/x")) none (by decide)

/-- C6: `dtfs_prop_get` on a property whose stored buffer is empty
invokes the visitor exactly once with no buffer and length 0 and
returns success; on a non-empty buffer it invokes the visitor exactly
once with the full buffer and its length. -/
theorem dtfs_prop_get_visits (st : Store) (base path : Option String) (str : String)
    (sz : Nat) (hc : dtfs_concat_path base path = some str)
    (hs : st.stat str = some (StatKind.file, sz)) :
    (sz = 0 → dtfs_prop_get st base path true = (0, [(str, none, 0)])) ∧
    (∀ buf, st.readFile str = some buf → buf.length = sz → 0 < sz →
      dtfs_prop_get st base path true = (0, [(str, some buf, sz)])) := by
  obtain ⟨b, rfl⟩ : ∃ b, base = some b := by
    cases base with
    | none => simp [dtfs_concat_path] at hc
    | some b => exact ⟨b, rfl⟩
  have hcheck : dtfs_check_path st (some b) path = DTFS_PATH_PROPERTY := by
    simp [dtfs_check_path, hc, hs]
  constructor
  · intro h0
    subst h0
    simp [dtfs_prop_get, hcheck, hc, hs]
  · intro buf hr hlen hpos
    subst hlen
    simp [dtfs_prop_get, hcheck, hc, hs, hpos, hr]

/-- C6 witness: a zero-byte property yields one visit with no buffer
and success; a one-byte property yields one visit with its content. -/
theorem dtfs_prop_get_visits_witness :
    dtfs_prop_get emptyPropStore (some ("/p")) none true = (0, [("/p", none, 0)]) ∧
    dtfs_prop_get bytePropStore (some ("/p")) none true = (0, [("/p", some [7], 1)]) :=
  ⟨(dtfs_prop_get_visits emptyPropStore (some ("/p")) none ("/p") 0 (by decide) rfl).1 rfl,
   (dtfs_prop_get_visits bytePropStore (some ("/p")) none ("/p") 1 (by decide) rfl).2
      [7] rfl rfl (by decide)⟩

/-- C10: a null visitor is not an error — both traversal operations
return 0 immediately, with no visits, for every backing store. -/
theorem dtfs_null_visitor_ok (st : Store) (base path : Option String) :
    dtfs_list_node st base path false = (0, []) ∧
    dtfs_prop_get st base path false = (0, []) :=
  ⟨rfl, rfl⟩

/-- A non-empty string fails the `len_base < 1` test. -/
theorem length_not_lt_one {b : String} (hb : b ≠ "") : ¬ b.length < 1 := by
  have hbd : b.data ≠ [] := fun h => hb (String.ext (by simp [h]))
  have hpos := List.length_pos.mpr hbd
  have hL : b.length = b.data.length := rfl
  omega

/-- Evaluation of the path builder on a non-empty base and absent
relative path. -/
theorem concat_some_none (b : String) (hb : b ≠ "") :
    dtfs_concat_path (some b) none = some b := by
  have h : dtfs_concat_path (some b) none = if b.length < 1 then none else some b := rfl
  rw [h, if_neg (length_not_lt_one hb)]

/-- Evaluation of the path builder on a non-empty base and present
relative path. -/
theorem concat_some_some (b : String) (hb : b ≠ "") (p : String) :
    dtfs_concat_path (some b) (some p) =
      if b.data.getD (b.length - 1) (Char.ofNat 0) ≠ '/' ∧
          p.data.getD 0 (Char.ofNat 0) ≠ '/' then some (b ++ "/" ++ p)
      else some (b ++ p) := by
  have h : dtfs_concat_path (some b) (some p) =
      if b.length < 1 then none
      else if b.data.getD (b.length - 1) (Char.ofNat 0) ≠ '/' ∧
          p.data.getD 0 (Char.ofNat 0) ≠ '/' then some (b ++ "/" ++ p)
      else some (b ++ p) := rfl
  rw [h, if_neg (length_not_lt_one hb)]

/-- The C test `base[len_base-1] != '/'` reads the last character. -/
theorem getD_last_char (b : String) (hb : b ≠ "") :
    b.data.getD (b.length - 1) (Char.ofNat 0) = '/' ↔ b.data.getLast? = some '/' := by
  have hbd : b.data ≠ [] := fun h => hb (String.ext (by simp [h]))
  have hlt : b.data.length - 1 < b.data.length := by
    have := List.length_pos.mpr hbd
    omega
  have hL : b.length = b.data.length := rfl
  rw [hL, List.getD_eq_getElem?_getD, List.getLast?_eq_getElem?,
    List.getElem?_eq_getElem hlt]
  simp

/-- The C test `path[0] != '/'` reads the first character; an empty
relative path reads its terminating NUL. -/
theorem getD_head_char (p : String) :
    p.data.getD 0 (Char.ofNat 0) = '/' ↔ p.data.head? = some '/' := by
  cases h : p.data with
  | nil =>
    simp only [List.getD, List.head?]
    constructor
    · intro hch
      exact absurd hch (by decide)
    · intro hch
      exact absurd hch (by simp)
  | cons c cs => simp [List.getD]

/-- C8: the path builder fails exactly when the base is absent or
empty; otherwise it inserts the separator '/' only when neither side
already provides one — base ++ "/" ++ path when base does not end with
'/' and path does not start with '/', base ++ path otherwise, and the
base alone when the relative path is absent. -/
theorem dtfs_concat_path_spec (base path : Option String) :
    (dtfs_concat_path base path = none ↔ base = none ∨ base = some ("")) ∧
    (∀ b, base = some b → b ≠ "" →
      (path = none → dtfs_concat_path base path = some b) ∧
      (∀ p, path = some p →
        dtfs_concat_path base path = some (
          if b.data.getLast? ≠ some '/' ∧ p.data.head? ≠ some '/' then b ++ "/" ++ p
          else b ++ p))) := by
  constructor
  · cases base with
    | none => simp [dtfs_concat_path]
    | some b =>
      by_cases hb : b = ""
      · subst hb
        simp [dtfs_concat_path]
      · cases path with
        | none => simp [concat_some_none b hb, hb]
        | some p =>
          rw [concat_some_some b hb p]
          split_ifs <;> simp [hb]
  · rintro b rfl hb
    constructor
    · rintro rfl
      exact concat_some_none b hb
    · rintro p rfl
      rw [concat_some_some b hb p]
      have hcond : (b.data.getD (b.length - 1) (Char.ofNat 0) ≠ '/' ∧
          p.data.getD 0 (Char.ofNat 0) ≠ '/') ↔
          (b.data.getLast? ≠ some '/' ∧ p.data.head? ≠ some '/') :=
        and_congr (not_congr (getD_last_char b hb)) (not_congr (getD_head_char p))
      rw [if_congr hcond rfl rfl]
      split_ifs <;> rfl

/-- C8 witness: joining "/a" and "b" inserts the separator. -/
theorem dtfs_concat_path_spec_witness :
    dtfs_concat_path (some ("/a")) (some ("b")) = some ("/a" ++ "/" ++ "b") := by
  have h := ((dtfs_concat_path_spec (some ("/a")) (some ("b"))).2 ("/a") rfl (by decide)).2
    "b" rfl
  rw [h, if_pos (by decide)]
